import Mathlib

/-!
Verification of the ReAct-style data-analysis agent: a shallow embedding of
`src/agent/react_agent.py`, `src/agent/state.py`, `src/tools/code_executor.py`
and `src/tools/sandbox.py`.  Strings are modelled as `List Char`; the language
model and the operating-system behaviour of the sandboxed subprocess are
oracles (universally quantified parameters).
-/

/-- The backtick character, used by the markdown code fences. -/
def btick : Char := Char.ofNat 96

/-- Python `str.strip()`: remove whitespace from both ends. -/
def pyStrip (s : List Char) : List Char :=
  ((s.dropWhile Char.isWhitespace).reverse.dropWhile Char.isWhitespace).reverse

/-- Python `str.upper()` (ASCII fragment, as used on the sentinel check). -/
def upper (s : List Char) : List Char := s.map Char.toUpper

/-- Split `s` at the first occurrence of `sep` (Python `s.split(sep, 1)` core):
`some (before, after)` when `sep` occurs, `none` otherwise. -/
def splitFirst (sep : List Char) : List Char → Option (List Char × List Char)
  | [] => none
  | c :: cs =>
    if sep.isPrefixOf (c :: cs) then some ([], (c :: cs).drop sep.length)
    else
      match splitFirst sep cs with
      | some (b, a) => some (c :: b, a)
      | none => none

/-- Python substring test `sep in s` (for non-empty `sep`). -/
def containsSub (sep s : List Char) : Bool := (splitFirst sep s).isSome

/-- Fueled worker for `pySplit`; the fuel is always sufficient at the call
site because each found separator strictly shortens the remainder. -/
def pySplitAux (sep : List Char) : Nat → List Char → List (List Char)
  | 0, s => [s]
  | fuel + 1, s =>
    match splitFirst sep s with
    | none => [s]
    | some (b, a) => b :: pySplitAux sep fuel a

/-- Python `s.split(sep)` for a non-empty separator. -/
def pySplit (sep s : List Char) : List (List Char) :=
  pySplitAux sep (s.length + 1) s

/-- First segment of the split: `s.split(sep)[0]`. -/
def firstSeg (sep s : List Char) : List Char :=
  match splitFirst sep s with
  | some (b, _) => b
  | none => s

/-- Fueled decimal rendering worker. -/
def natDigitsAux : Nat → Nat → List Char
  | 0, _ => []
  | fuel + 1, n =>
    if n < 10 then [Char.ofNat (48 + n)]
    else natDigitsAux fuel (n / 10) ++ [Char.ofNat (48 + n % 10)]

/-- Decimal rendering of a natural number, as Python string interpolation
renders a non-negative `int`. -/
def natDigits (n : Nat) : List Char := natDigitsAux (n + 1) n

/-- Decimal decoding, used only to prove `natDigits` injective. -/
def undigits (s : List Char) : Nat :=
  s.foldl (fun acc c => 10 * acc + (c.toNat - 48)) 0

/- ## Execution Engine: `CodeSandbox.execute_code` (src/tools/sandbox.py) -/

/-- Result dictionary returned by `CodeSandbox.execute_code`. -/
structure ExecResult where
  success : Bool
  stdout : List Char
  stderr : List Char
  plot_path : Option (List Char)
deriving DecidableEq

/-- Outcome of the `subprocess.run` call inside the `try` block: normal
completion with an exit code and captured streams, `subprocess.TimeoutExpired`,
or any other exception (launch failure, internal error) with its `str(e)`. -/
inductive RunOutcome
  | completed (returncode : Int) (stdout stderr : List Char)
  | timedout
  | raised (msg : List Char)
deriving DecidableEq

/-- Oracle bundle for one `execute_code` invocation: the sandbox configuration
(`self.timeout`, `self.output_dir`) together with what the operating system
does on this call — the subprocess outcome, whether the process left the
well-known `output.html` file in the ephemeral workspace, and the value of
`int(time.time())` observed when relocating the artifact. -/
structure SandboxEnv where
  timeout : Nat
  output_dir : List Char
  run : RunOutcome
  artifactWritten : Bool
  time : Nat

/-- The stderr produced on timeout.  The source line 73 is a plain string
literal (the `f` prefix is missing), so the braces and `self.timeout` appear
verbatim and the actual timeout value is never interpolated. -/
def timeout_stderr : List Char :=
  "Execution timeout expired (\x7bself.timeout\x7ds).".data

/-- `plot_{int(time.time())}.html`. -/
def plot_name (t : Nat) : List Char :=
  "plot_".data ++ natDigits t ++ ".html".data

/-- `str(self.output_dir / plot_name)`. -/
def plotPath (env : SandboxEnv) : List Char :=
  env.output_dir ++ "/".data ++ plot_name env.time

/-- `CodeSandbox.execute_code` (src/tools/sandbox.py lines 18-84).  The code
string is materialised into the workspace and run by the oracle; on normal
completion the artifact is relocated iff `output.html` exists, independently
of the exit status; `TimeoutExpired` and any other exception are converted
into failure dictionaries. -/
def execute_code (env : SandboxEnv) (code : List Char) : ExecResult :=
  match env.run with
  | .completed rc out err =>
    let plot_path : Option (List Char) :=
      if env.artifactWritten then some (plotPath env) else none
    { success := rc == 0, stdout := out, stderr := err, plot_path := plot_path }
  | .timedout =>
    { success := false, stdout := [], stderr := timeout_stderr, plot_path := none }
  | .raised msg =>
    { success := false, stdout := [], stderr := msg, plot_path := none }

/- ## Execution Tool Adapter: `execute_python_code` (src/tools/code_executor.py) -/

/-- `"Code executed successfully.\n"`. -/
def okLine : List Char := "Code executed successfully.\n".data

/-- `"\nGenerated plot available at: "`. -/
def plotLine : List Char := "\nGenerated plot available at: ".data

/-- `"Code execution failed with error:\n"`. -/
def failLine : List Char := "Code execution failed with error:\n".data

/-- The loop's success marker substring. -/
def okMarker : List Char := "Code executed successfully".data

/-- The loop's artifact marker substring. -/
def plotMarker : List Char := "Generated plot available at:".data

/-- Rendering of the sandbox result into the observation string
(src/tools/code_executor.py lines 39-46).  `if result["plot_path"]:` is a
Python truthiness test, so an absent or empty path appends nothing. -/
def execute_python_code (result : ExecResult) : List Char :=
  if result.success then
    let output := okLine ++ result.stdout
    match result.plot_path with
    | some p => if p.isEmpty then output else output ++ plotLine ++ p
    | none => output
  else failLine ++ result.stderr

/- ## Agent state (src/agent/state.py) and control loop (src/agent/react_agent.py) -/

/-- Message roles of the langchain message classes used by the agent. -/
inductive Role
  | system
  | human
  | ai
deriving DecidableEq

/-- One conversation turn. -/
structure Msg where
  role : Role
  content : List Char
deriving DecidableEq

/-- `AgentState` (src/agent/state.py): transcript, iteration counter, budget,
completion flag. -/
structure AgentState where
  messages : List Msg
  iteration : Nat
  max_iterations : Nat
  task_complete : Bool
deriving DecidableEq

/-- LangGraph state merge: `messages` is annotated with `operator.add`, so a
node's returned messages are appended; the scalar fields are overwritten. -/
def applyDelta (s d : AgentState) : AgentState :=
  { messages := s.messages ++ d.messages
  , iteration := d.iteration
  , max_iterations := d.max_iterations
  , task_complete := d.task_complete }

/-- The reasoner capability: `self.llm.invoke` as an oracle from the message
list to the response text. -/
def LLM : Type := List Msg → List Char

/-- The engine as seen by the loop: code string to execution result; the
observation consumed by the loop is its rendering by the adapter. -/
def Engine : Type := List Char → ExecResult

def sysMsg (c : List Char) : Msg := ⟨Role.system, c⟩

def humanMsg (c : List Char) : Msg := ⟨Role.human, c⟩

def aiMsg (c : List Char) : Msg := ⟨Role.ai, c⟩

/-- The guided system prompt of `_plan_node`. -/
def system_prompt : List Char :=
  ("You are a data analysis and visualization expert using the ReAct framework.\n" ++
   "Your task is to help users with data analysis and create Plotly visualizations.\n" ++
   "**Available Tools:**\n" ++
   "- execute_python: Execute Python code for data analysis and visualization. " ++
   "The code should save plots as \x27output.html\x27 in the current directory.\n" ++
   "**ReAct Process:**\n1. **Thought**: Reason about what needs to be done\n" ++
   "2. **Action**: Decide to execute Python code\n" ++
   "3. **Observation**: Review the execution result\n" ++
   "**Important:**\n- Always save Plotly figures as \x27output.html\x27 using: " ++
   "fig.write_html(\x27output.html\x27)\n" ++
   "- Import required libraries (pandas, plotly, numpy, etc.)\n" ++
   "- Break complex tasks into steps if needed\n" ++
   "- If execution fails, analyze the error and adjust your approach\n" ++
   "When you have completed the task successfully, respond with \"TASK_COMPLETE\".").data

/-- The code-generation prompt of `_act_node`. -/
def code_prompt : List Char :=
  ("Based on your thought process, generate the Python code to execute.\n" ++
   "**Requirements:**\n- Include all necessary imports\n" ++
   "- Save Plotly figures as \x27output.html\x27 using: " ++
   "fig.write_html(\x27output_<time_stamp>.html\x27)\n" ++
   "- Include error handling where appropriate\n" ++
   "- Add comments to explain key steps\n" ++
   "Respond with ONLY the Python code, wrapped in ```python <code blocks>```.").data

/-- The completion sentinel checked against the uppercased plan response. -/
def sentinel : List Char := "TASK_COMPLETE".data

/-- The internal action-passing marker prefix. -/
def codeMarker : List Char := "CODE_TO_EXECUTE:".data

/-- `f"**Thought: (Iteration {state['iteration']}):** {response.content}"`. -/
def thoughtMsg (i : Nat) (response : List Char) : List Char :=
  "**Thought: (Iteration ".data ++ natDigits i ++ "):** ".data ++ response

/-- `_plan_node` (src/agent/react_agent.py lines 57-101). -/
def plan_node (llm : LLM) (s : AgentState) : AgentState :=
  let response := llm (sysMsg system_prompt :: s.messages)
  applyDelta s
    { messages := [aiMsg (thoughtMsg s.iteration response)]
    , iteration := s.iteration
    , max_iterations := s.max_iterations
    , task_complete := containsSub sentinel (upper response) }

/-- `"```python"`. -/
def pyTag : List Char := "```python".data

/-- `"```"`. -/
def fence : List Char := "```".data

/-- `_extract_code` (src/agent/react_agent.py lines 242-265): a tagged fenced
block yields the text between the first ```python and the following ```,
stripped; otherwise a generic fenced block with at least two delimiters
yields the stripped middle segment; otherwise the whole stripped text. -/
def extract_code (content : List Char) : List Char :=
  if containsSub pyTag content then
    let parts := pySplit pyTag content
    if parts.length > 1 then
      pyStrip ((pySplit fence (parts.getD 1 [])).getD 0 [])
    else pyStrip content
  else if containsSub fence content then
    let parts := pySplit fence content
    if parts.length > 2 then pyStrip (parts.getD 1 [])
    else pyStrip content
  else pyStrip content

/-- `f"**Action: Executing Python code:\n```python\n{code}\n```**"`. -/
def actMsg (code : List Char) : List Char :=
  "**Action: Executing Python code:\n```python\n".data ++ code ++ "\n```**".data

/-- The rethink note appended on an extraction miss. -/
def noCodeMsg : List Char :=
  "**Action: No code to execute. Need to rethink approach.**".data

/-- `_act_node` (src/agent/react_agent.py lines 103-162). -/
def act_node (llm : LLM) (s : AgentState) : AgentState :=
  if s.task_complete then
    applyDelta s
      { messages := []
      , iteration := s.iteration
      , max_iterations := s.max_iterations
      , task_complete := true }
  else
    let response := llm (s.messages ++ [humanMsg code_prompt])
    let code := extract_code response
    if code = [] then
      applyDelta s
        { messages := [aiMsg noCodeMsg]
        , iteration := s.iteration
        , max_iterations := s.max_iterations
        , task_complete := false }
    else
      applyDelta s
        { messages := [aiMsg (actMsg code), humanMsg (codeMarker ++ code)]
        , iteration := s.iteration
        , max_iterations := s.max_iterations
        , task_complete := false }

/-- The reversed-scan for the most recent `CODE_TO_EXECUTE:` message
(src/agent/react_agent.py lines 185-190): the first match from the end, its
content split on the marker once, the part after the marker stripped. -/
def findCode (msgs : List Msg) : Option (List Char) :=
  match msgs.reverse.find? (fun m => containsSub codeMarker m.content) with
  | some m => some (pyStrip (((splitFirst codeMarker m.content).map Prod.snd).getD []))
  | none => none

/-- `f"**Observation: {observation}**"`. -/
def obsMsg (observation : List Char) : List Char :=
  "**Observation: ".data ++ observation ++ "**".data

/-- `_observe_node` (src/agent/react_agent.py lines 164-212).  When the task
is already complete the node only increments the counter.  Otherwise it looks
for queued code; with no queued code (or empty queued code — both falsy in
Python) the local variable `task_complete` is referenced in the returned
dictionary without ever being assigned, so the node raises
`UnboundLocalError`: that crash is modelled by `none`. -/
def observe_node (engine : Engine) (s : AgentState) : Option AgentState :=
  if s.task_complete then
    some (applyDelta s
      { messages := []
      , iteration := s.iteration + 1
      , max_iterations := s.max_iterations
      , task_complete := true })
  else
    match findCode s.messages with
    | none => none
    | some code =>
      if code = [] then none
      else
        let observation := execute_python_code (engine code)
        some (applyDelta s
          { messages := [aiMsg (obsMsg observation)]
          , iteration := s.iteration + 1
          , max_iterations := s.max_iterations
          , task_complete :=
              containsSub okMarker observation && containsSub plotMarker observation })

/-- The two values returned by `_should_continue`. -/
inductive Decision
  | cont
  | stop
deriving DecidableEq

/-- `_should_continue` (src/agent/react_agent.py lines 214-240). -/
def should_continue (s : AgentState) : Decision :=
  if s.task_complete then Decision.stop
  else if s.max_iterations ≤ s.iteration then Decision.stop
  else
    match s.messages.getLast? with
    | some m => if containsSub plotMarker m.content then Decision.stop else Decision.cont
    | none => Decision.cont

/-- The initial state built by `run` (src/agent/react_agent.py lines 278-283). -/
def initialState (q : List Char) (maxIter : Nat) : AgentState :=
  { messages := [humanMsg q]
  , iteration := 0
  , max_iterations := maxIter
  , task_complete := false }

/- ## The compiled LangGraph workflow as a state machine -/

/-- The nodes of the compiled graph, plus the conditional-edge evaluation
point and the terminal `END`. -/
inductive Phase
  | plan
  | act
  | observe
  | check
  | terminal
deriving DecidableEq

/-- One configuration of a run. -/
def Config : Type := Phase × AgentState

/-- The transition relation of the compiled workflow: plan → act → observe,
then the conditional edge `_should_continue` back to plan or to END.  The
observe transition exists only when `_observe_node` returns (does not raise);
a configuration at `observe` whose node raises is stuck. -/
inductive GStep (llm : LLM) (engine : Engine) : Config → Config → Prop
  | planStep (s : AgentState) :
      GStep llm engine (Phase.plan, s) (Phase.act, plan_node llm s)
  | actStep (s : AgentState) :
      GStep llm engine (Phase.act, s) (Phase.observe, act_node llm s)
  | observeStep (s s' : AgentState) (h : observe_node engine s = some s') :
      GStep llm engine (Phase.observe, s) (Phase.check, s')
  | loopStep (s : AgentState) (h : should_continue s = Decision.cont) :
      GStep llm engine (Phase.check, s) (Phase.plan, s)
  | finishStep (s : AgentState) (h : should_continue s = Decision.stop) :
      GStep llm engine (Phase.check, s) (Phase.terminal, s)

/-- Reachability in the workflow. -/
def Reach (llm : LLM) (engine : Engine) : Config → Config → Prop :=
  Relation.ReflTransGen (GStep llm engine)

/- ## Infrastructure lemmas about the string primitives -/

lemma isPrefixOf_eq_true_iff {l₁ l₂ : List Char} :
    l₁.isPrefixOf l₂ = true ↔ l₁ <+: l₂ := List.isPrefixOf_iff_prefix

lemma infix_if_starts {l₁ l₂ : List Char} (h : l₁ <+: l₂) : l₁ <:+: l₂ :=
  List.IsPrefix.isInfix h

lemma splitFirst_sound {sep : List Char} :
    ∀ {s b a : List Char}, splitFirst sep s = some (b, a) → s = b ++ sep ++ a := by
  intro s
  induction s with
  | nil => intro b a h; simp [splitFirst] at h
  | cons c cs ih =>
    intro b a h
    by_cases hp : sep.isPrefixOf (c :: cs)
    · rw [splitFirst, if_pos hp] at h
      obtain ⟨hb, ha⟩ := Prod.mk.injEq .. ▸ Option.some.injEq .. ▸ h
      obtain ⟨r, hr⟩ := isPrefixOf_eq_true_iff.mp hp
      subst hb
      have : (c :: cs).drop sep.length = r := by
        rw [← hr]; exact List.drop_left sep r
      rw [← ha, this, List.nil_append, hr]
    · rw [splitFirst, if_neg hp] at h
      cases hsf : splitFirst sep cs with
      | none => rw [hsf] at h; exact absurd h (by simp)
      | some p =>
        obtain ⟨b', a'⟩ := p
        rw [hsf] at h
        obtain ⟨hb, ha⟩ := Prod.mk.injEq .. ▸ Option.some.injEq .. ▸ h
        subst hb ha
        have := ih hsf
        simp only [List.cons_append, List.append_assoc] at this ⊢
        exact congrArg (c :: ·) this

lemma splitFirst_eq_none_of_no_occ {sep : List Char} :
    ∀ {s : List Char}, ¬ sep <:+: s → splitFirst sep s = none := by
  intro s
  induction s with
  | nil => intro _; rfl
  | cons c cs ih =>
    intro h
    have hp : ¬ sep.isPrefixOf (c :: cs) := by
      intro hp
      exact h (infix_if_starts (isPrefixOf_eq_true_iff.mp hp))
    rw [splitFirst, if_neg hp]
    have hcs : ¬ sep <:+: cs := fun hc => h (List.infix_cons hc)
    rw [ih hcs]

lemma no_occ_of_splitFirst_eq_none {sep : List Char} (hsep : sep ≠ []) :
    ∀ {s : List Char}, splitFirst sep s = none → ¬ sep <:+: s := by
  intro s
  induction s with
  | nil => intro _ h; exact hsep (List.infix_nil.mp h)
  | cons c cs ih =>
    intro h hinf
    by_cases hp : sep.isPrefixOf (c :: cs)
    · rw [splitFirst, if_pos hp] at h; exact absurd h (by simp)
    · rw [splitFirst, if_neg hp] at h
      cases hsf : splitFirst sep cs with
      | some p => rw [hsf] at h; exact absurd h (by simp)
      | none =>
        rcases List.infix_cons_iff.mp hinf with hpre | htail
        · exact hp (isPrefixOf_eq_true_iff.mpr hpre)
        · exact ih hsf htail

lemma containsSub_iff {sep s : List Char} (hsep : sep ≠ []) :
    containsSub sep s = true ↔ sep <:+: s := by
  unfold containsSub
  constructor
  · intro h
    cases hsf : splitFirst sep s with
    | none => rw [hsf] at h; exact absurd h (by simp)
    | some p =>
      obtain ⟨b, a⟩ := p
      exact (splitFirst_sound hsf) ▸ ⟨b, a, by simp [List.append_assoc]⟩
  · intro h
    cases hsf : splitFirst sep s with
    | none => exact absurd h (no_occ_of_splitFirst_eq_none hsep hsf)
    | some p => simp [hsf]

lemma splitFirst_some_length {sep : List Char} (hsep : sep ≠ []) :
    ∀ {s b a : List Char}, splitFirst sep s = some (b, a) → a.length < s.length := by
  intro s
  induction s with
  | nil => intro b a h; simp [splitFirst] at h
  | cons c cs ih =>
    intro b a h
    by_cases hp : sep.isPrefixOf (c :: cs)
    · rw [splitFirst, if_pos hp] at h
      obtain ⟨_, ha⟩ := Prod.mk.injEq .. ▸ Option.some.injEq .. ▸ h
      rw [← ha, List.length_drop]
      have hlen : 1 ≤ sep.length := by
        cases sep with
        | nil => exact absurd rfl hsep
        | cons x xs => simp
      simp only [List.length_cons]
      omega
    · rw [splitFirst, if_neg hp] at h
      cases hsf : splitFirst sep cs with
      | none => rw [hsf] at h; exact absurd h (by simp)
      | some p =>
        obtain ⟨b', a'⟩ := p
        rw [hsf] at h
        obtain ⟨_, ha⟩ := Prod.mk.injEq .. ▸ Option.some.injEq .. ▸ h
        have := ih hsf
        rw [← ha]
        simp only [List.length_cons]
        omega

lemma prefix_of_prefix_append {t : List Char} :
    ∀ {x y : List Char}, t <+: x ++ y → t.length ≤ x.length → t <+: x := by
  induction t with
  | nil => intro x y _ _; exact List.nil_prefix
  | cons c t' ih =>
    intro x y h hl
    cases x with
    | nil => simp at hl
    | cons d x' =>
      rw [List.cons_append] at h
      rw [List.cons_prefix_cons] at h
      obtain ⟨hc, ht⟩ := h
      subst hc
      simp only [List.length_cons, Nat.add_le_add_iff_right] at hl
      exact List.cons_prefix_cons.mpr ⟨rfl, ih ht hl⟩

lemma infix_ctx_if_starts {sep a x : List Char} (hsep : sep ≠ []) (ha : a ≠ [])
    (h : sep <+: a ++ (sep ++ x)) : sep <:+: (a ++ sep.dropLast) := by
  have hre : a ++ (sep ++ x) = (a ++ sep.dropLast) ++ ([sep.getLast hsep] ++ x) := by
    conv_lhs => rw [← List.dropLast_concat_getLast hsep]
    simp [List.append_assoc]
  rw [hre] at h
  have hlen : sep.length ≤ (a ++ sep.dropLast).length := by
    rw [List.length_append, List.length_dropLast]
    have h1 : 1 ≤ sep.length := by
      cases sep with
      | nil => exact absurd rfl hsep
      | cons c cs => simp
    have h2 : 1 ≤ a.length := by
      cases a with
      | nil => exact absurd rfl ha
      | cons c cs => simp
    omega
  exact infix_if_starts (prefix_of_prefix_append h hlen)

lemma splitFirst_append_sep {sep : List Char} (hsep : sep ≠ []) :
    ∀ {a x : List Char}, ¬ sep <:+: (a ++ sep.dropLast) →
      splitFirst sep (a ++ (sep ++ x)) = some (a, x) := by
  intro a
  induction a with
  | nil =>
    intro x _
    simp only [List.nil_append]
    cases hs : sep with
    | nil => exact absurd hs hsep
    | cons c cs =>
      rw [List.cons_append, splitFirst]
      rw [if_pos (isPrefixOf_eq_true_iff.mpr (List.cons_append c cs x ▸ List.prefix_append (c :: cs) x))]
      have hdrop : (c :: (cs ++ x)).drop (c :: cs).length = x := by
        rw [← List.cons_append]
        exact List.drop_left (c :: cs) x
      rw [hdrop]
  | cons d a' ih =>
    intro x h
    have hp : ¬ sep.isPrefixOf (d :: (a' ++ (sep ++ x))) := by
      intro hp
      exact h (infix_ctx_if_starts hsep (by simp)
        (by rw [List.cons_append]; exact isPrefixOf_eq_true_iff.mp hp))
    have h' : ¬ sep <:+: (a' ++ sep.dropLast) := by
      intro hi
      exact h (by rw [List.cons_append]; exact List.infix_cons hi)
    rw [List.cons_append, splitFirst, if_neg hp, ih h']

lemma pySplitAux_fuel {sep : List Char} (hsep : sep ≠ []) :
    ∀ (f1 : Nat) {f2 : Nat} {s : List Char}, s.length < f1 → s.length < f2 →
      pySplitAux sep f1 s = pySplitAux sep f2 s := by
  intro f1
  induction f1 with
  | zero => intro f2 s h1 _; omega
  | succ f ih =>
    intro f2 s h1 h2
    cases f2 with
    | zero => omega
    | succ g =>
      rw [pySplitAux, pySplitAux]
      cases hsf : splitFirst sep s with
      | none => rfl
      | some p =>
        obtain ⟨b, a⟩ := p
        have hl := splitFirst_some_length hsep hsf
        show b :: pySplitAux sep f a = b :: pySplitAux sep g a
        exact congrArg (b :: ·) (ih (by omega) (by omega))

lemma pySplit_unfold {sep s : List Char} (hsep : sep ≠ []) :
    pySplit sep s =
      match splitFirst sep s with
      | none => [s]
      | some (b, a) => b :: pySplit sep a := by
  unfold pySplit
  rw [pySplitAux]
  cases hsf : splitFirst sep s with
  | none => rfl
  | some p =>
    obtain ⟨b, a⟩ := p
    have hl := splitFirst_some_length hsep hsf
    exact congrArg (b :: ·) (pySplitAux_fuel hsep _ (by omega) (by omega))

lemma digit_toNat {d : Nat} (h : d < 10) : (Char.ofNat (48 + d)).toNat = 48 + d := by
  interval_cases d <;> decide

lemma undigits_append_digit (xs : List Char) (c : Char) :
    undigits (xs ++ [c]) = 10 * undigits xs + (c.toNat - 48) := by
  unfold undigits
  rw [List.foldl_append]
  rfl

lemma undigits_natDigitsAux : ∀ (fuel n : Nat), n < fuel →
    undigits (natDigitsAux fuel n) = n := by
  intro fuel
  induction fuel with
  | zero => intro n h; omega
  | succ f ih =>
    intro n h
    rw [natDigitsAux]
    by_cases h10 : n < 10
    · rw [if_pos h10]
      show undigits ([] ++ [Char.ofNat (48 + n)]) = n
      rw [undigits_append_digit, digit_toNat h10]
      simp [undigits]
    · rw [if_neg h10, undigits_append_digit]
      have hdiv : n / 10 < n := Nat.div_lt_self (by omega) (by omega)
      rw [ih _ (by omega), digit_toNat (Nat.mod_lt n (by omega))]
      have := Nat.div_add_mod n 10
      omega

lemma natDigits_injective {a b : Nat} (h : natDigits a = natDigits b) : a = b := by
  have ha := undigits_natDigitsAux (a + 1) a (by omega)
  have hb := undigits_natDigitsAux (b + 1) b (by omega)
  unfold natDigits at h
  rw [h] at ha
  rw [ha] at hb
  exact hb

lemma infix_append_ctx {t b z : List Char} (h : t <:+: b) : t <:+: b ++ z :=
  h.trans (infix_if_starts (List.prefix_append b z))

lemma infix_append_left_ctx {t s : List Char} (p : List Char) (h : t <:+: s) :
    t <:+: p ++ s :=
  h.trans (List.IsSuffix.isInfix (List.suffix_append p s))

lemma fence_shape : fence = [btick, btick, btick] := by decide

lemma pyTag_shape : pyTag = fence ++ "python".data := by decide

lemma fence_starts_pyTag : fence <+: pyTag := ⟨"python".data, by decide⟩

lemma splitFirst_pyTag_mid {c : List Char} (hc : c.head? ≠ some btick) :
    ∀ {b : List Char}, ¬ fence <:+: (b ++ fence.dropLast) →
      ∀ {B A : List Char}, splitFirst pyTag (b ++ (fence ++ c)) = some (B, A) →
        B = b ∨ ∃ x, B = b ++ (fence ++ x) := by
  intro b
  induction b with
  | nil =>
    intro _ B A h
    simp only [List.nil_append] at h
    rw [fence_shape] at h
    simp only [List.cons_append, List.nil_append] at h
    by_cases hp0 : pyTag.isPrefixOf (btick :: btick :: btick :: c)
    · rw [splitFirst, if_pos hp0] at h
      obtain ⟨hB, _⟩ := Prod.mk.injEq .. ▸ Option.some.injEq .. ▸ h
      exact Or.inl hB.symm
    · have hp1 : ¬ pyTag.isPrefixOf (btick :: btick :: c) := by
        intro hp
        obtain ⟨r, hr⟩ := isPrefixOf_eq_true_iff.mp hp
        rw [pyTag_shape, fence_shape] at hr
        simp only [List.cons_append, List.nil_append, List.cons.injEq] at hr
        exact hc (by rw [← hr.2.2]; rfl)
      have hp2 : ¬ pyTag.isPrefixOf (btick :: c) := by
        intro hp
        obtain ⟨r, hr⟩ := isPrefixOf_eq_true_iff.mp hp
        rw [pyTag_shape, fence_shape] at hr
        simp only [List.cons_append, List.nil_append, List.cons.injEq] at hr
        exact hc (by rw [← hr.2]; rfl)
      rw [splitFirst, if_neg hp0, splitFirst, if_neg hp1, splitFirst, if_neg hp2] at h
      cases hs3 : splitFirst pyTag c with
      | none => rw [hs3] at h; exact absurd h (by simp)
      | some p =>
        obtain ⟨B', A'⟩ := p
        rw [hs3] at h
        simp only [Option.some.injEq, Prod.mk.injEq] at h
        refine Or.inr ⟨B', ?_⟩
        rw [← h.1, fence_shape]
        rfl
  | cons d b' ih =>
    intro hB B A h
    have hp : ¬ pyTag.isPrefixOf (d :: (b' ++ (fence ++ c))) := by
      intro hp
      have hf : fence <+: (d :: b') ++ (fence ++ c) := by
        rw [List.cons_append]
        exact fence_starts_pyTag.trans (isPrefixOf_eq_true_iff.mp hp)
      exact hB (infix_ctx_if_starts (by decide) (by simp) hf)
    have hB' : ¬ fence <:+: (b' ++ fence.dropLast) := by
      intro hi
      exact hB (by rw [List.cons_append]; exact List.infix_cons hi)
    rw [List.cons_append, splitFirst, if_neg hp] at h
    cases hs : splitFirst pyTag (b' ++ (fence ++ c)) with
    | none => rw [hs] at h; exact absurd h (by simp)
    | some p =>
      obtain ⟨B'', A''⟩ := p
      rw [hs] at h
      simp only [Option.some.injEq, Prod.mk.injEq] at h
      rcases ih hB' hs with h1 | ⟨x, h2⟩
      · exact Or.inl (by rw [← h.1, h1])
      · refine Or.inr ⟨x, ?_⟩
        rw [← h.1, h2]
        rfl

lemma pySplit_getD_zero {sep s : List Char} (hsep : sep ≠ []) :
    (pySplit sep s).getD 0 [] = firstSeg sep s := by
  rw [pySplit_unfold hsep]
  cases hsf : splitFirst sep s with
  | none => simp [firstSeg, hsf]
  | some p => obtain ⟨b, a⟩ := p; simp [firstSeg, hsf]

lemma firstSeg_inner {b c : List Char} (hB : ¬ fence <:+: (b ++ fence.dropLast))
    (hc : c.head? ≠ some btick) :
    firstSeg fence (firstSeg pyTag (b ++ (fence ++ c))) = b := by
  have hfb : splitFirst fence (b ++ (fence ++ c)) = some (b, c) :=
    splitFirst_append_sep (by decide) hB
  cases hsp : splitFirst pyTag (b ++ (fence ++ c)) with
  | none =>
    unfold firstSeg
    rw [hsp, hfb]
  | some p =>
    obtain ⟨B, A⟩ := p
    rcases splitFirst_pyTag_mid hc hB hsp with h1 | ⟨x, h2⟩
    · have hnone : splitFirst fence b = none := by
        apply splitFirst_eq_none_of_no_occ
        intro hi
        exact hB (infix_append_ctx hi)
      unfold firstSeg
      rw [hsp, h1, hnone]
    · have hfx : splitFirst fence (b ++ (fence ++ x)) = some (b, x) :=
        splitFirst_append_sep (by decide) hB
      unfold firstSeg
      rw [hsp, h2, hfx]

lemma pySplit_length_pos {sep s : List Char} (hsep : sep ≠ []) :
    0 < (pySplit sep s).length := by
  rw [pySplit_unfold hsep]
  cases hsf : splitFirst sep s with
  | none => simp
  | some p => obtain ⟨b, a⟩ := p; simp

lemma extract_code_case1 {content : List Char} (h : containsSub pyTag content = true)
    (hlen : (pySplit pyTag content).length > 1) :
    extract_code content = pyStrip (firstSeg fence ((pySplit pyTag content).getD 1 [])) := by
  unfold extract_code
  rw [if_pos h]
  show (if (pySplit pyTag content).length > 1 then
      pyStrip ((pySplit fence ((pySplit pyTag content).getD 1 [])).getD 0 [])
    else pyStrip content) = _
  rw [if_pos hlen, pySplit_getD_zero (by decide)]

lemma extract_code_tagged {a b c : List Char}
    (hA : ¬ pyTag <:+: (a ++ pyTag.dropLast))
    (hB : ¬ fence <:+: (b ++ fence.dropLast))
    (hc : c.head? ≠ some btick) :
    extract_code (a ++ (pyTag ++ (b ++ (fence ++ c)))) = pyStrip b := by
  have h1 : splitFirst pyTag (a ++ (pyTag ++ (b ++ (fence ++ c)))) =
      some (a, b ++ (fence ++ c)) := splitFirst_append_sep (by decide) hA
  have hps : pySplit pyTag (a ++ (pyTag ++ (b ++ (fence ++ c)))) =
      a :: pySplit pyTag (b ++ (fence ++ c)) := by
    rw [pySplit_unfold (by decide), h1]
  have hcs : containsSub pyTag (a ++ (pyTag ++ (b ++ (fence ++ c)))) = true := by
    unfold containsSub; rw [h1]; rfl
  have hpos := pySplit_length_pos (s := b ++ (fence ++ c))
    (show pyTag ≠ [] by decide)
  rw [extract_code_case1 hcs (by rw [hps]; simp only [List.length_cons]; omega)]
  rw [hps, List.getD_cons_succ, pySplit_getD_zero (by decide), firstSeg_inner hB hc]

lemma splitFirst_fence_btickfree : ∀ {a : List Char}, btick ∉ a →
    ∀ {x : List Char}, splitFirst fence (a ++ (fence ++ x)) = some (a, x) := by
  intro a
  induction a with
  | nil => intro _ x; exact splitFirst_append_sep (by decide) (by decide)
  | cons d a' ih =>
    intro hmem x
    have hd : ¬ fence.isPrefixOf (d :: (a' ++ (fence ++ x))) := by
      intro hp
      obtain ⟨r, hr⟩ := isPrefixOf_eq_true_iff.mp hp
      rw [fence_shape] at hr
      simp only [List.cons_append, List.nil_append, List.cons.injEq] at hr
      exact hmem (by rw [hr.1]; exact List.mem_cons_self d a')
    rw [List.cons_append, splitFirst, if_neg hd,
      ih (fun hm => hmem (List.mem_cons_of_mem d hm))]

lemma splitFirst_fence_eq_none {b : List Char} (hb : btick ∉ b) :
    splitFirst fence b = none := by
  apply splitFirst_eq_none_of_no_occ
  intro hi
  exact hb ( List.IsInfix.subset hi (by decide))

lemma extract_code_untagged {a b : List Char} (ha : btick ∉ a) (hb : btick ∉ b)
    (hpy : ¬ pyTag <:+: (a ++ (fence ++ b))) :
    extract_code (a ++ (fence ++ b)) = pyStrip (a ++ (fence ++ b)) := by
  have hc1 : containsSub pyTag (a ++ (fence ++ b)) = false := by
    unfold containsSub
    rw [splitFirst_eq_none_of_no_occ hpy]
    rfl
  have hf : splitFirst fence (a ++ (fence ++ b)) = some (a, b) :=
    splitFirst_fence_btickfree ha
  have hc2 : containsSub fence (a ++ (fence ++ b)) = true := by
    unfold containsSub; rw [hf]; rfl
  have hps : pySplit fence (a ++ (fence ++ b)) = [a, b] := by
    rw [pySplit_unfold (by decide), hf]
    show a :: pySplit fence b = [a, b]
    rw [pySplit_unfold (by decide), splitFirst_fence_eq_none hb]
  unfold extract_code
  rw [if_neg (by rw [hc1]; exact Bool.false_ne_true)]
  rw [if_pos hc2]
  show (if (pySplit fence (a ++ (fence ++ b))).length > 2 then
      pyStrip ((pySplit fence (a ++ (fence ++ b))).getD 1 [])
    else pyStrip (a ++ (fence ++ b))) = _
  rw [hps]
  simp

lemma infix_right_of_head_notMem {t p s : List Char} {ch : Char}
    (hh : t.head? = some ch) (hp : ch ∉ p) (h : t <:+: p ++ s) : t <:+: s := by
  induction p with
  | nil => simpa using h
  | cons d p' ih =>
    rw [List.cons_append] at h
    rcases List.infix_cons_iff.mp h with hpre | htail
    · cases t with
      | nil => simp at hh
      | cons c t' =>
        rw [List.cons_prefix_cons] at hpre
        simp only [List.head?_cons, Option.some.injEq] at hh
        exact absurd (by rw [← hh, hpre.1]; exact List.mem_cons_self d p') hp
    · exact ih (fun hm => hp (List.mem_cons_of_mem d hm)) htail

/-- The observation branch of `_observe_node` with queued, non-empty code. -/
lemma observe_node_exec_eq (engine : Engine) (s : AgentState) (c : List Char)
    (hdone : s.task_complete = false) (hfind : findCode s.messages = some c)
    (hc : c ≠ []) :
    observe_node engine s = some (applyDelta s
      { messages := [aiMsg (obsMsg (execute_python_code (engine c)))]
      , iteration := s.iteration + 1
      , max_iterations := s.max_iterations
      , task_complete := containsSub okMarker (execute_python_code (engine c)) &&
          containsSub plotMarker (execute_python_code (engine c)) }) := by
  unfold observe_node
  rw [if_neg (by simp [hdone]), hfind]
  show (if c = [] then none else _) = _
  rw [if_neg hc]

lemma execute_python_code_success_shape {r : ExecResult} (hs : r.success = true) :
    execute_python_code r = okLine ++ r.stdout ∨
    ∃ p, execute_python_code r = okLine ++ r.stdout ++ plotLine ++ p := by
  unfold execute_python_code
  rw [if_pos hs]
  cases hp : r.plot_path with
  | none => exact Or.inl rfl
  | some p =>
    by_cases hpe : p.isEmpty
    · refine Or.inl ?_
      show (if p.isEmpty = true then okLine ++ r.stdout
        else okLine ++ r.stdout ++ plotLine ++ p) = okLine ++ r.stdout
      rw [if_pos hpe]
    · refine Or.inr ⟨p, ?_⟩
      show (if p.isEmpty = true then okLine ++ r.stdout
        else okLine ++ r.stdout ++ plotLine ++ p) = okLine ++ r.stdout ++ plotLine ++ p
      rw [if_neg hpe]

lemma markers_in_success_obs {r : ExecResult} (hs : r.success = true)
    (hm : containsSub plotMarker r.stdout = true) :
    containsSub okMarker (execute_python_code r) = true ∧
    containsSub plotMarker (execute_python_code r) = true := by
  have hmi : plotMarker <:+: r.stdout := (containsSub_iff (by decide)).mp hm
  have hoki : okMarker <:+: okLine := infix_if_starts ⟨".\n".data, by decide⟩
  rcases execute_python_code_success_shape hs with he | ⟨p, he⟩
  · rw [he]
    exact ⟨(containsSub_iff (by decide)).mpr (infix_append_ctx hoki),
      (containsSub_iff (by decide)).mpr (infix_append_left_ctx okLine hmi)⟩
  · rw [he]
    refine ⟨(containsSub_iff (by decide)).mpr ?_,
      (containsSub_iff (by decide)).mpr ?_⟩
    · exact infix_append_ctx (infix_append_ctx (infix_append_ctx hoki))
    · exact infix_append_ctx (infix_append_ctx (infix_append_left_ctx okLine hmi))

/- ## Claim theorems: the Execution Engine -/

/-- C3: for every code string and configured timeout, `execute_code` returns
an `ExecResult` on every outcome of the subprocess call (no exception
escapes the modelled `try` block): the result is successful exactly when the
process completed with exit status 0, and both the timeout and the
exception failure modes yield `success = false` together with a descriptive
(non-empty, message-carrying) `stderr`. -/
theorem C3_execute_code_captures_failures (env : SandboxEnv) (code : List Char) :
    ((execute_code env code).success = true ↔
      ∃ out err, env.run = RunOutcome.completed 0 out err)
    ∧ (env.run = RunOutcome.timedout →
        (execute_code env code).success = false ∧
        (execute_code env code).stderr = timeout_stderr ∧ timeout_stderr ≠ [])
    ∧ (∀ msg, env.run = RunOutcome.raised msg →
        (execute_code env code).success = false ∧
        (execute_code env code).stderr = msg) := by
  refine ⟨⟨?_, ?_⟩, ?_, ?_⟩
  · intro h
    cases hr : env.run with
    | completed rc out err =>
      refine ⟨out, err, ?_⟩
      unfold execute_code at h
      rw [hr] at h
      simp only [beq_iff_eq] at h
      rw [h]
    | timedout => unfold execute_code at h; rw [hr] at h; simp at h
    | raised msg => unfold execute_code at h; rw [hr] at h; simp at h
  · rintro ⟨out, err, hr⟩
    unfold execute_code
    rw [hr]
    simp
  · intro hr
    unfold execute_code
    rw [hr]
    exact ⟨rfl, rfl, by decide⟩
  · intro msg hr
    unfold execute_code
    rw [hr]
    exact ⟨rfl, rfl⟩

/-- Witness for C3 at concrete inputs: a timed-out call and a call whose
subprocess launch raised `FileNotFoundError`-style message both yield
captured failure results. -/
theorem C3_witness :
    ((execute_code ⟨30, "output".data, RunOutcome.timedout, false, 0⟩
        "print(1)".data).success = false ∧
      (execute_code ⟨30, "output".data, RunOutcome.timedout, false, 0⟩
        "print(1)".data).stderr = timeout_stderr ∧ timeout_stderr ≠ [])
    ∧ ((execute_code ⟨30, "output".data,
          RunOutcome.raised "No such file or directory".data, false, 0⟩
        "print(1)".data).success = false ∧
      (execute_code ⟨30, "output".data,
          RunOutcome.raised "No such file or directory".data, false, 0⟩
        "print(1)".data).stderr = "No such file or directory".data) :=
  ⟨(C3_execute_code_captures_failures
      ⟨30, "output".data, RunOutcome.timedout, false, 0⟩ "print(1)".data).2.1 rfl,
   (C3_execute_code_captures_failures
      ⟨30, "output".data, RunOutcome.raised "No such file or directory".data, false, 0⟩
      "print(1)".data).2.2 "No such file or directory".data rfl⟩

/-- C4: the claim requires the timeout stderr to state the actual timeout
value; the code (sandbox.py line 73) lacks the f-string prefix, so with
`timeout = 30` the stderr is the literal placeholder text and the digits
`30` never appear in it.  This theorem evaluates the engine at the failing
input. -/
theorem C4_timeout_stderr_placeholder :
    (execute_code ⟨30, "output".data, RunOutcome.timedout, false, 0⟩
        "import time\ntime.sleep(60)".data).success = false
    ∧ (execute_code ⟨30, "output".data, RunOutcome.timedout, false, 0⟩
        "import time\ntime.sleep(60)".data).stderr =
      "Execution timeout expired (\x7bself.timeout\x7ds).".data
    ∧ containsSub "30".data
        (execute_code ⟨30, "output".data, RunOutcome.timedout, false, 0⟩
          "import time\ntime.sleep(60)".data).stderr = false
    ∧ (execute_code ⟨30, "output".data, RunOutcome.timedout, false, 0⟩
        "import time\ntime.sleep(60)".data).plot_path = none := by
  decide

/-- C5: when the sandboxed process writes `output.html` and exits with a
non-zero status (a completed, non-timed-out run), the result has
`success = false` and `plot_path` still populated with the relocated
artifact path: success and artifact presence are independent. -/
theorem C5_artifact_despite_failure (env : SandboxEnv) (code : List Char)
    (rc : Int) (out err : List Char)
    (hrun : env.run = RunOutcome.completed rc out err) (hrc : rc ≠ 0)
    (hart : env.artifactWritten = true) :
    (execute_code env code).success = false ∧
    (execute_code env code).plot_path = some (plotPath env) := by
  unfold execute_code
  rw [hrun]
  simp [hart, hrc]

/-- Witness for C5: exit status 1 with the artifact present yields a failed
result whose `plot_path` is the relocated timestamped artifact. -/
theorem C5_witness :
    (execute_code ⟨30, "output".data,
        RunOutcome.completed 1 [] "Traceback".data, true, 1000⟩
      "raise ValueError".data).success = false ∧
    (execute_code ⟨30, "output".data,
        RunOutcome.completed 1 [] "Traceback".data, true, 1000⟩
      "raise ValueError".data).plot_path =
      some (plotPath ⟨30, "output".data,
        RunOutcome.completed 1 [] "Traceback".data, true, 1000⟩) :=
  C5_artifact_despite_failure
    ⟨30, "output".data, RunOutcome.completed 1 [] "Traceback".data, true, 1000⟩
    "raise ValueError".data 1 [] "Traceback".data rfl (by decide) rfl

/-- C7 counterexample: two invocations of the Engine with identical code from
a clean output directory, both completing within the same clock second
(`int(time.time())` returns 1000 for both), produce the SAME artifact path,
so the second `output_file.rename` overwrites the first artifact instead of
producing two distinct files — refuting the claim that the second invocation
never overwrites the first one's file. -/
theorem C7_counterexample_same_timestamp :
    (execute_code ⟨30, "output".data,
        RunOutcome.completed 0 [] [], true, 1000⟩ "fig.write_html".data).plot_path =
      (execute_code ⟨30, "output".data,
        RunOutcome.completed 0 "second call".data [], true, 1000⟩
          "fig.write_html".data).plot_path
    ∧ (execute_code ⟨30, "output".data,
        RunOutcome.completed 0 [] [], true, 1000⟩ "fig.write_html".data).plot_path =
      some ("output/plot_1000.html".data) := by
  decide

/-- C7 (amended): two invocations of the Engine with identical code and the
same clean output directory produce two distinct artifact files provided the
two calls observe distinct `int(time.time())` values; with equal timestamps
the names collide and the second rename overwrites the first. -/
theorem C7_distinct_times_distinct_artifacts (e1 e2 : SandboxEnv)
    (c1 c2 : List Char) (rc1 rc2 : Int) (o1 r1 o2 r2 : List Char)
    (h1 : e1.run = RunOutcome.completed rc1 o1 r1)
    (h2 : e2.run = RunOutcome.completed rc2 o2 r2)
    (ha1 : e1.artifactWritten = true) (ha2 : e2.artifactWritten = true)
    (hdir : e1.output_dir = e2.output_dir) (ht : e1.time ≠ e2.time) :
    (execute_code e1 c1).plot_path.isSome = true ∧
    (execute_code e2 c2).plot_path.isSome = true ∧
    (execute_code e1 c1).plot_path ≠ (execute_code e2 c2).plot_path := by
  have hp1 : (execute_code e1 c1).plot_path = some (plotPath e1) := by
    unfold execute_code
    rw [h1]
    simp [ha1]
  have hp2 : (execute_code e2 c2).plot_path = some (plotPath e2) := by
    unfold execute_code
    rw [h2]
    simp [ha2]
  refine ⟨by rw [hp1]; rfl, by rw [hp2]; rfl, ?_⟩
  rw [hp1, hp2]
  intro hEq
  apply ht
  apply natDigits_injective
  have hpp : plotPath e1 = plotPath e2 := Option.some_inj.mp hEq
  unfold plotPath plot_name at hpp
  rw [hdir] at hpp
  simp only [List.append_assoc] at hpp
  have h3 := List.append_cancel_left hpp
  have h4 := List.append_cancel_left h3
  have h5 := List.append_cancel_left h4
  exact List.append_cancel_right h5

/-- Witness for C7 (amended): timestamps 1000 and 1001 give two distinct,
present artifact paths. -/
theorem C7_witness :
    (execute_code ⟨30, "output".data,
        RunOutcome.completed 0 [] [], true, 1000⟩
      "fig.write_html".data).plot_path.isSome = true ∧
    (execute_code ⟨30, "output".data,
        RunOutcome.completed 0 [] [], true, 1001⟩
      "fig.write_html".data).plot_path.isSome = true ∧
    (execute_code ⟨30, "output".data,
        RunOutcome.completed 0 [] [], true, 1000⟩
      "fig.write_html".data).plot_path ≠
    (execute_code ⟨30, "output".data,
        RunOutcome.completed 0 [] [], true, 1001⟩
      "fig.write_html".data).plot_path :=
  C7_distinct_times_distinct_artifacts
    ⟨30, "output".data, RunOutcome.completed 0 [] [], true, 1000⟩
    ⟨30, "output".data, RunOutcome.completed 0 [] [], true, 1001⟩
    "fig.write_html".data "fig.write_html".data 0 0 [] [] [] []
    rfl rfl rfl rfl rfl (by decide)

/- ## Claim theorems: the Observe step and the observation protocol -/

/-- C2 (amended): after executing a queued snippet, the Observe step sets
`done` exactly when the rendered observation contains both the success and
the artifact marker substrings; and an execution that succeeds without an
artifact sets `done = false` provided its stdout does not itself contain the
artifact marker substring (the unamended universal claim fails on
marker-containing stdout, see the counterexample). -/
theorem C2_observe_done_iff_markers (engine : Engine) (s : AgentState)
    (c : List Char) (res : AgentState) (hdone : s.task_complete = false)
    (hfind : findCode s.messages = some c) (hc : c ≠ [])
    (hobs : observe_node engine s = some res) :
    (res.task_complete =
      (containsSub okMarker (execute_python_code (engine c)) &&
       containsSub plotMarker (execute_python_code (engine c))))
    ∧ ((engine c).success = true → (engine c).plot_path = none →
        containsSub plotMarker (engine c).stdout = false →
        res.task_complete = false) := by
  rw [observe_node_exec_eq engine s c hdone hfind hc] at hobs
  have hres := Option.some_inj.mp hobs
  constructor
  · rw [← hres]
    rfl
  · intro hs hp hm
    rw [← hres]
    show (containsSub okMarker (execute_python_code (engine c)) &&
      containsSub plotMarker (execute_python_code (engine c))) = false
    have hobs_eq : execute_python_code (engine c) = okLine ++ (engine c).stdout := by
      unfold execute_python_code
      rw [if_pos hs, hp]
    rw [hobs_eq]
    have hnone : containsSub plotMarker (okLine ++ (engine c).stdout) = false := by
      cases hx : containsSub plotMarker (okLine ++ (engine c).stdout) with
      | false => rfl
      | true =>
        have hinf := (containsSub_iff (by decide)).mp hx
        have h2 := infix_right_of_head_notMem
          (show plotMarker.head? = some 'G' by decide)
          (show 'G' ∉ okLine by decide) hinf
        have h3 := (containsSub_iff (by decide)).mpr h2
        rw [h3] at hm
        exact absurd hm (by decide)
    rw [hnone, Bool.and_false]

/-- C2 counterexample: an execution that succeeds WITHOUT producing an
artifact (`plot_path = none`, exit 0) whose stdout happens to contain the
artifact marker substring makes the Observe step set `done = true`, refuting
the claim that done is never set by a success-without-artifact observation. -/
theorem C2_counterexample_stdout_spoof :
    ((⟨true, "Generated plot available at: /tmp/fake.html".data, [], none⟩ :
        ExecResult).success = true)
    ∧ ((⟨true, "Generated plot available at: /tmp/fake.html".data, [], none⟩ :
        ExecResult).plot_path = none)
    ∧ (observe_node
        (fun _ => ⟨true, "Generated plot available at: /tmp/fake.html".data, [], none⟩)
        ⟨[humanMsg "CODE_TO_EXECUTE:print(\"ok\")".data], 0, 5, false⟩).map
        (fun r => r.task_complete) = some true := by
  decide

/-- Witness for C2 (amended): the spec's own scenario — `print("ok")`
succeeds, prints `ok`, produces no artifact, and the loop does not set
`done` from this observation. -/
theorem C2_witness :
    (observe_node (fun _ => ⟨true, "ok\n".data, [], none⟩)
        ⟨[humanMsg "CODE_TO_EXECUTE:print(\"ok\")".data], 0, 5, false⟩).map
      (fun r => r.task_complete) = some false := by
  cases hobs : observe_node (fun _ => ⟨true, "ok\n".data, [], none⟩)
      ⟨[humanMsg "CODE_TO_EXECUTE:print(\"ok\")".data], 0, 5, false⟩ with
  | none => exact absurd hobs (by decide)
  | some res =>
    have h := (C2_observe_done_iff_markers _ _ ("print(\"ok\")".data) res rfl
      (by decide) (by decide) hobs).2 rfl rfl (by decide)
    simp [h]

/-- C9: whenever the queued snippet's process exits 0 and its stdout contains
the literal artifact marker substring, the Observe step sets `done = true` —
the loop's termination substrings are matched against the whole rendered
observation, which embeds the untrusted stdout — regardless of whether an
artifact file was actually produced. -/
theorem C9_stdout_marker_sets_done (engine : Engine) (s : AgentState)
    (c : List Char) (res : AgentState) (hdone : s.task_complete = false)
    (hfind : findCode s.messages = some c) (hc : c ≠ [])
    (hs : (engine c).success = true)
    (hm : containsSub plotMarker (engine c).stdout = true)
    (hobs : observe_node engine s = some res) :
    res.task_complete = true := by
  rw [observe_node_exec_eq engine s c hdone hfind hc] at hobs
  have hres := Option.some_inj.mp hobs
  rw [← hres]
  show (containsSub okMarker (execute_python_code (engine c)) &&
    containsSub plotMarker (execute_python_code (engine c))) = true
  obtain ⟨h1, h2⟩ := markers_in_success_obs hs hm
  rw [h1, h2]
  rfl

/-- Witness for C9: a concrete artifact-free (`plot_path = none`), exit-0
execution whose stdout contains the marker, after which `done` is set. -/
theorem C9_witness :
    ((⟨true, "see Generated plot available at: nowhere".data, [], none⟩ :
        ExecResult).plot_path = none)
    ∧ (observe_node
        (fun _ => ⟨true, "see Generated plot available at: nowhere".data, [], none⟩)
        ⟨[humanMsg "CODE_TO_EXECUTE:print(2)".data], 1, 5, false⟩).map
      (fun r => r.task_complete) = some true := by
  refine ⟨rfl, ?_⟩
  cases hobs : observe_node
      (fun _ => ⟨true, "see Generated plot available at: nowhere".data, [], none⟩)
      ⟨[humanMsg "CODE_TO_EXECUTE:print(2)".data], 1, 5, false⟩ with
  | none => exact absurd hobs (by decide)
  | some res =>
    have h := C9_stdout_marker_sets_done _ _ ("print(2)".data) res rfl
      (by decide) (by decide) rfl (by decide) hobs
    simp [h]

/- ## Claim theorem: code extraction (C10) -/

/-- C10: code-extraction policy of `_extract_code`.  First conjunct: a
response containing a ```python-tagged fenced block — written
`a ++ "```python" ++ b ++ "```" ++ c` where the tag shown is the first one,
the interior `b` contains no fence (nor does one straddle its end), and the
text after the closing fence does not start with a further backtick — yields
exactly the block interior with surrounding whitespace trimmed.  Second
conjunct: a response whose only fencing is a single untagged ``` delimiter
(no backticks elsewhere, not tagged) yields the whole trimmed response text,
and in particular never crashes (extraction is a total function). -/
theorem C10_extract_code_policy :
    (∀ a b c : List Char, ¬ pyTag <:+: (a ++ pyTag.dropLast) →
      ¬ fence <:+: (b ++ fence.dropLast) → c.head? ≠ some btick →
      extract_code (a ++ (pyTag ++ (b ++ (fence ++ c)))) = pyStrip b)
    ∧ (∀ a b : List Char, btick ∉ a → btick ∉ b →
      ¬ pyTag <:+: (a ++ (fence ++ b)) →
      extract_code (a ++ (fence ++ b)) = pyStrip (a ++ (fence ++ b))) :=
  ⟨fun _ _ _ => extract_code_tagged, fun _ _ => extract_code_untagged⟩

/-- Witness for C10 at concrete responses: a well-formed tagged block yields
its interior `print(1)`; a lone untagged delimiter yields the whole trimmed
text. -/
theorem C10_witness :
    extract_code ("Sure, here:\n".data ++ (pyTag ++
      ("\nprint(1)\n".data ++ (fence ++ "\nThat is it.".data)))) = "print(1)".data
    ∧ extract_code ("no closing here ".data ++ (fence ++ "\nprint(2)".data)) =
      pyStrip ("no closing here ".data ++ (fence ++ "\nprint(2)".data)) := by
  constructor
  · have h := C10_extract_code_policy.1 "Sure, here:\n".data "\nprint(1)\n".data
      "\nThat is it.".data (by decide) (by decide) (by decide)
    rw [h]
    decide
  · exact C10_extract_code_policy.2 "no closing here ".data "\nprint(2)".data
      (by decide) (by decide) (by decide)

/- ## State-machine lemmas for the control loop -/

lemma plan_node_iter (llm : LLM) (s : AgentState) :
    (plan_node llm s).iteration = s.iteration := rfl

lemma plan_node_max (llm : LLM) (s : AgentState) :
    (plan_node llm s).max_iterations = s.max_iterations := rfl

lemma act_node_iter (llm : LLM) (s : AgentState) :
    (act_node llm s).iteration = s.iteration := by
  simp only [act_node]
  split
  · rfl
  · split <;> rfl

lemma act_node_max (llm : LLM) (s : AgentState) :
    (act_node llm s).max_iterations = s.max_iterations := by
  simp only [act_node]
  split
  · rfl
  · split <;> rfl

lemma observe_node_none_of_empty (engine : Engine) (s : AgentState)
    (hd : s.task_complete = false)
    (h : findCode s.messages = none ∨ findCode s.messages = some []) :
    observe_node engine s = none := by
  unfold observe_node
  rw [if_neg (by simp [hd])]
  rcases h with h | h
  · rw [h]
  · rw [h]
    show (if ([] : List Char) = [] then none else _) = none
    rw [if_pos rfl]

lemma observe_node_some_shape (engine : Engine) (s s' : AgentState)
    (h : observe_node engine s = some s') :
    s'.iteration = s.iteration + 1 ∧ s'.max_iterations = s.max_iterations ∧
    (s.task_complete = true → s'.task_complete = true) := by
  cases hd : s.task_complete with
  | true =>
    unfold observe_node at h
    rw [if_pos hd] at h
    rw [← Option.some_inj.mp h]
    exact ⟨rfl, rfl, fun _ => rfl⟩
  | false =>
    cases hf : findCode s.messages with
    | none =>
      rw [observe_node_none_of_empty engine s hd (Or.inl hf)] at h
      exact Option.noConfusion h
    | some c =>
      by_cases hce : c = []
      · rw [hce] at hf
        rw [observe_node_none_of_empty engine s hd (Or.inr hf)] at h
        exact Option.noConfusion h
      · rw [observe_node_exec_eq engine s c hd hf hce] at h
        rw [← Option.some_inj.mp h]
        exact ⟨rfl, rfl, fun ht => Bool.noConfusion ht⟩

lemma should_continue_cont_bounds {s : AgentState}
    (h : should_continue s = Decision.cont) :
    s.task_complete = false ∧ s.iteration < s.max_iterations := by
  unfold should_continue at h
  by_cases h1 : s.task_complete
  · rw [if_pos h1] at h
    exact absurd h (by decide)
  · rw [if_neg h1] at h
    by_cases h2 : s.max_iterations ≤ s.iteration
    · rw [if_pos h2] at h
      exact absurd h (by decide)
    · refine ⟨?_, by omega⟩
      cases ht : s.task_complete with
      | false => rfl
      | true => exact absurd ht h1

lemma should_continue_stop_of_done {s : AgentState}
    (h : s.task_complete = true) : should_continue s = Decision.stop := by
  unfold should_continue
  rw [if_pos h]

/-- The per-phase strengthened iteration bound. -/
def phaseBound (p : Phase) (i m : Nat) : Prop :=
  match p with
  | Phase.check => i ≤ m
  | Phase.terminal => i ≤ m
  | _ => i < m

lemma gstep_iterInv {llm : LLM} {engine : Engine} {m : Nat} {c c' : Config}
    (h : GStep llm engine c c')
    (hc : c.2.max_iterations = m ∧ phaseBound c.1 c.2.iteration m) :
    c'.2.max_iterations = m ∧ phaseBound c'.1 c'.2.iteration m := by
  obtain ⟨hm, hb⟩ := hc
  cases h with
  | planStep s =>
    exact ⟨by rw [plan_node_max]; exact hm, by rw [plan_node_iter]; exact hb⟩
  | actStep s =>
    exact ⟨by rw [act_node_max]; exact hm, by rw [act_node_iter]; exact hb⟩
  | observeStep s s' hobs =>
    obtain ⟨hi, hmx, _⟩ := observe_node_some_shape engine s s' hobs
    refine ⟨by rw [hmx]; exact hm, ?_⟩
    show s'.iteration ≤ m
    have : s.iteration < m := hb
    omega
  | loopStep s hsc =>
    have h1 := (should_continue_cont_bounds hsc).2
    have hm2 : s.max_iterations = m := hm
    exact ⟨hm, by show s.iteration < m; omega⟩
  | finishStep s hsc =>
    exact ⟨hm, hb⟩

/-- Auxiliary: the iteration-bound half of C1 does hold — in every reachable
configuration of a run started with `iterationLimit ≥ 1`, `iteration` never
exceeds `iterationLimit`. -/
theorem loop_iteration_bound (llm : LLM) (engine : Engine) (q : List Char)
    (m : Nat) (hm : 1 ≤ m) (ph : Phase) (t : AgentState)
    (h : Reach llm engine (Phase.plan, initialState q m) (ph, t)) :
    t.iteration ≤ m := by
  have H : ∀ c' : Config, Reach llm engine (Phase.plan, initialState q m) c' →
      c'.2.max_iterations = m ∧ phaseBound c'.1 c'.2.iteration m := by
    intro c' hr
    induction hr with
    | refl => exact ⟨rfl, by show 0 < m; omega⟩
    | tail hpre hstep ih => exact gstep_iterInv hstep ih
  have hb := (H (ph, t) h).2
  cases ph <;> simp only [phaseBound] at hb <;> omega

/-- Reachable plan-phase configurations carry `done = false` (the loop only
re-enters `plan` through a `continue` decision). -/
def PhaseInv (c : Config) : Prop := c.1 = Phase.plan → c.2.task_complete = false

lemma gstep_phaseInv {llm : LLM} {engine : Engine} {c c' : Config}
    (h : GStep llm engine c c') (hc : PhaseInv c) : PhaseInv c' := by
  cases h with
  | planStep s => intro hph; exact Phase.noConfusion hph
  | actStep s => intro hph; exact Phase.noConfusion hph
  | observeStep s s' hobs => intro hph; exact Phase.noConfusion hph
  | loopStep s hsc => intro _; exact (should_continue_cont_bounds hsc).1
  | finishStep s hsc => intro hph; exact Phase.noConfusion hph

lemma reach_phaseInv {llm : LLM} {engine : Engine} {c c' : Config}
    (h : Reach llm engine c c') (hc : PhaseInv c) : PhaseInv c' := by
  induction h with
  | refl => exact hc
  | tail hpre hstep ih => exact gstep_phaseInv hstep ih

lemma gstep_done_mono {llm : LLM} {engine : Engine} {c c' : Config}
    (h : GStep llm engine c c') (hinv : PhaseInv c)
    (hd : c.2.task_complete = true) : c'.2.task_complete = true := by
  cases h with
  | planStep s =>
    have hfalse : s.task_complete = false := hinv rfl
    rw [hfalse] at hd
    exact Bool.noConfusion hd
  | actStep s =>
    show (act_node llm s).task_complete = true
    unfold act_node
    rw [if_pos hd]
    rfl
  | observeStep s s' hobs =>
    exact (observe_node_some_shape engine s s' hobs).2.2 hd
  | loopStep s hsc => exact hd
  | finishStep s hsc => exact hd

/- ## Claim theorem: the done flag (C8) -/

/-- C8: in every run, once `done` (`task_complete`) has been set true in a
reachable configuration, it stays true in every configuration reachable from
there (no later phase resets it), and at any decision point
(`_should_continue`, the `check` phase) reached with `done = true` the loop
terminates (`_should_continue` returns `end`). -/
theorem C8_done_monotone_and_stops (llm : LLM) (engine : Engine)
    (q : List Char) (m : Nat) (c c' : Config)
    (h0 : Reach llm engine (Phase.plan, initialState q m) c)
    (h1 : Reach llm engine c c')
    (hd : c.2.task_complete = true) :
    c'.2.task_complete = true ∧
    (c'.1 = Phase.check → should_continue c'.2 = Decision.stop) := by
  have hdone : c'.2.task_complete = true := by
    induction h1 with
    | refl => exact hd
    | tail hpre hstep ih =>
      exact gstep_done_mono hstep
        (reach_phaseInv (Relation.ReflTransGen.trans h0 hpre) (fun _ => rfl)) ih
  exact ⟨hdone, fun _ => should_continue_stop_of_done hdone⟩

/-- Witness for C8: a reasoner that answers `TASK_COMPLETE` makes `plan` set
`done`; applying the theorem along the one-step reach from the initial
configuration shows it holds at the `act` configuration. -/
theorem C8_witness :
    (plan_node (fun _ => "TASK_COMPLETE".data)
      (initialState "draw a plot".data 5)).task_complete = true ∧
    ((Phase.act : Phase) = Phase.check →
      should_continue (plan_node (fun _ => "TASK_COMPLETE".data)
        (initialState "draw a plot".data 5)) = Decision.stop) :=
  C8_done_monotone_and_stops (fun _ => "TASK_COMPLETE".data)
    (fun _ => ⟨false, [], [], none⟩) "draw a plot".data 5
    (Phase.act, plan_node (fun _ => "TASK_COMPLETE".data)
      (initialState "draw a plot".data 5))
    (Phase.act, plan_node (fun _ => "TASK_COMPLETE".data)
      (initialState "draw a plot".data 5))
    (Relation.ReflTransGen.single (GStep.planStep _))
    Relation.ReflTransGen.refl
    (by decide)

/- ## Claim theorems: the crash in the Observe phase (C1, C6) -/

/-- C1: the claim's termination half fails on the code.  With a reasoner
whose responses contain no extractable code (here: the empty response) and
`iterationLimit = 5 ≥ 1`, the run reaches an `observe` configuration whose
node raises (`_observe_node` references the local `task_complete` in the
no-code branch without ever assigning it — `UnboundLocalError`), and from
that stuck configuration no transition exists: the loop never reaches
`Terminal`.  The iteration-bound half of the claim does hold: see
`loop_iteration_bound`. -/
theorem C1_run_crashes_before_terminal :
    ∃ t : AgentState,
      Reach (fun _ => []) (fun _ => ⟨false, [], [], none⟩)
        (Phase.plan, initialState "hi".data 5) (Phase.observe, t)
      ∧ observe_node (fun _ => ⟨false, [], [], none⟩) t = none
      ∧ ∀ c' : Config, ¬ GStep (fun _ => []) (fun _ => ⟨false, [], [], none⟩)
          (Phase.observe, t) c' := by
  refine ⟨act_node (fun _ => []) (plan_node (fun _ => [])
      (initialState "hi".data 5)), ?_, ?_, ?_⟩
  · exact Relation.ReflTransGen.tail
      (Relation.ReflTransGen.single (GStep.planStep _)) (GStep.actStep _)
  · decide
  · intro c' hstep
    have hn : observe_node (fun _ => (⟨false, [], [], none⟩ : ExecResult))
        (act_node (fun _ => []) (plan_node (fun _ => [])
          (initialState "hi".data 5))) = none := by decide
    cases hstep with
    | observeStep s s' hobs =>
      rw [hn] at hobs
      exact Option.noConfusion hobs

/-- C6: the claim's first half holds — on an extraction miss the Act step
appends the rethink note — but the loop does not continue without error.
With no previously queued snippet, `_observe_node` crashes
(`UnboundLocalError`, modelled as `none`); and when a stale
`CODE_TO_EXECUTE:` message from an earlier cycle exists in the transcript,
the Observe step finds it and re-executes the stale snippet (it does consume
an execution) instead of running nothing. -/
theorem C6_extraction_miss_crashes_observe :
    (act_node (fun _ => "   ".data) (plan_node (fun _ => "   ".data)
        (initialState "plot something".data 5))).messages.getLast? =
      some (aiMsg noCodeMsg)
    ∧ observe_node (fun _ => ⟨true, "ok".data, [], none⟩)
        (act_node (fun _ => "   ".data) (plan_node (fun _ => "   ".data)
          (initialState "plot something".data 5))) = none
    ∧ (observe_node (fun _ => ⟨true, "ran stale code".data, [], none⟩)
        ⟨[humanMsg ("CODE_TO_EXECUTE:old_code()".data), aiMsg noCodeMsg],
          1, 5, false⟩).map (fun r => r.messages.getLast?) =
      some (some (aiMsg (obsMsg ("Code executed successfully.\nran stale code".data)))) := by
  refine ⟨by decide, by decide, by decide⟩

/-- Auxiliary: the loop cannot run forever.  From any start-of-cycle
configuration, the run reaches either `Terminal` or an `observe`
configuration whose node raises (the only way a run fails to reach
`Terminal` is the `_observe_node` crash). -/
theorem loop_terminates_or_crashes (llm : LLM) (engine : Engine) :
    ∀ (n : Nat) (s : AgentState), s.max_iterations - s.iteration ≤ n →
      (∃ t : AgentState, Reach llm engine (Phase.plan, s) (Phase.terminal, t)) ∨
      (∃ t : AgentState, Reach llm engine (Phase.plan, s) (Phase.observe, t) ∧
        observe_node engine t = none) := by
  intro n
  induction n with
  | zero =>
    intro s hn
    have step2 : Reach llm engine (Phase.plan, s)
        (Phase.observe, act_node llm (plan_node llm s)) :=
      Relation.ReflTransGen.tail
        (Relation.ReflTransGen.single (GStep.planStep s)) (GStep.actStep _)
    cases hobs : observe_node engine (act_node llm (plan_node llm s)) with
    | none => exact Or.inr ⟨_, step2, hobs⟩
    | some s3 =>
      have step3 : Reach llm engine (Phase.plan, s) (Phase.check, s3) :=
        Relation.ReflTransGen.tail step2 (GStep.observeStep _ _ hobs)
      obtain ⟨hi, hmx, _⟩ := observe_node_some_shape engine _ s3 hobs
      rw [act_node_iter, plan_node_iter] at hi
      rw [act_node_max, plan_node_max] at hmx
      cases hsc : should_continue s3 with
      | stop =>
        exact Or.inl ⟨s3, Relation.ReflTransGen.tail step3 (GStep.finishStep _ hsc)⟩
      | cont =>
        have hb := (should_continue_cont_bounds hsc).2
        omega
  | succ k ih =>
    intro s hn
    have step2 : Reach llm engine (Phase.plan, s)
        (Phase.observe, act_node llm (plan_node llm s)) :=
      Relation.ReflTransGen.tail
        (Relation.ReflTransGen.single (GStep.planStep s)) (GStep.actStep _)
    cases hobs : observe_node engine (act_node llm (plan_node llm s)) with
    | none => exact Or.inr ⟨_, step2, hobs⟩
    | some s3 =>
      have step3 : Reach llm engine (Phase.plan, s) (Phase.check, s3) :=
        Relation.ReflTransGen.tail step2 (GStep.observeStep _ _ hobs)
      obtain ⟨hi, hmx, _⟩ := observe_node_some_shape engine _ s3 hobs
      rw [act_node_iter, plan_node_iter] at hi
      rw [act_node_max, plan_node_max] at hmx
      cases hsc : should_continue s3 with
      | stop =>
        exact Or.inl ⟨s3, Relation.ReflTransGen.tail step3 (GStep.finishStep _ hsc)⟩
      | cont =>
        have hb := (should_continue_cont_bounds hsc).2
        have hloop : Reach llm engine (Phase.plan, s) (Phase.plan, s3) :=
          Relation.ReflTransGen.tail step3 (GStep.loopStep _ hsc)
        rcases ih s3 (by omega) with ⟨t, ht⟩ | ⟨t, ht, hcrash⟩
        · exact Or.inl ⟨t, Relation.ReflTransGen.trans hloop ht⟩
        · exact Or.inr ⟨t, Relation.ReflTransGen.trans hloop ht, hcrash⟩
